import Mathlib

/-!
Verification of the Drift-radar core (scoring engine and baseline
aggregator) against its specification.

The TypeScript core is embedded shallowly: JS numbers become `ℚ`
(every arithmetic operation the core performs on the values of
interest — `+`, `*`, `/`, `min`, `max`, `Math.round` — is exact on
the rationals involved), and the two transcendental float operations
(`Math.log`-based `log10` and `Math.sqrt`) are abstracted as a
parameter structure `NumOps`; theorems about concrete scores carry
interval hypotheses pinning those operations to the true mathematical
values at the arguments used.
-/

/-- Embeds `clamp` from utils: `Math.max(min, Math.min(max, v))`. -/
def clamp (lo hi v : ℚ) : ℚ := max lo (min hi v)

/-- Embeds `round` from utils, i.e. JS `Math.round`: round half toward
positive infinity, `⌊n + 1/2⌋`. -/
def jround (n : ℚ) : ℚ := ((⌊n + 1/2⌋ : ℤ) : ℚ)

/-- The two transcendental operations the scoring engine uses
(`log10` from utils and `Math.sqrt`), abstracted as parameters of the
embedding. -/
structure NumOps where
  log10 : ℚ → ℚ
  sqrt : ℚ → ℚ

/-- JS `toLowerCase`, modelled on the character list of the string (the
paths involved are ASCII, where the two agree). -/
def lowerStr (p : String) : List Char := p.data.map Char.toLower

/-- JS `String.prototype.startsWith` on character lists. -/
def leadsWith : List Char → List Char → Bool
  | [], _ => true
  | _ :: _, [] => false
  | c :: cs, d :: ds => c == d && leadsWith cs ds

/-- JS `String.prototype.endsWith` on character lists. -/
def trailsWith (tail hay : List Char) : Bool := leadsWith tail.reverse hay.reverse

/-- JS `String.prototype.includes` on character lists: the first list
occurs contiguously in the second. -/
def occursIn (needle : List Char) : List Char → Bool
  | [] => leadsWith needle []
  | d :: ds => leadsWith needle (d :: ds) || occursIn needle ds

/-- Embeds `isDocsPath` from utils. -/
def isDocsPath (p : String) : Bool :=
  let lower := lowerStr p
  leadsWith "docs/".data lower || trailsWith ".md".data lower || leadsWith "readme".data lower

/-- Embeds `isInfraPath` from utils. -/
def isInfraPath (p : String) : Bool :=
  let lower := lowerStr p
  leadsWith ".github/".data lower || lower == "dockerfile".data ||
    leadsWith "terraform/".data lower || trailsWith ".yml".data lower ||
    trailsWith ".yaml".data lower || trailsWith ".tf".data lower

/-- Embeds `isCorePath` from utils. -/
def isCorePath (p : String) : Bool :=
  let lower := lowerStr p
  leadsWith "src/".data lower || leadsWith "lib/".data lower || leadsWith "app/".data lower

/-- Embeds `isTestsPath` from utils. -/
def isTestsPath (p : String) : Bool :=
  let lower := lowerStr p
  leadsWith "tests/".data lower || occursIn "/__tests__/".data lower ||
    leadsWith "__tests__/".data lower

/-- Embeds the fixed dependency-manifest filename set from `isDepsPath`. -/
def depsFiles : List String :=
  ["package.json", "package-lock.json", "pnpm-lock.yaml", "yarn.lock", "poetry.lock",
    "requirements.txt", "pipfile.lock"]

/-- Embeds `isDepsPath` from utils: set membership of the lower-cased
path among the manifest filenames. -/
def isDepsPath (p : String) : Bool := depsFiles.any (fun s => lowerStr p == s.data)

/-- Stable insertion step: `x` moves past `y` exactly when `goPast x y`. -/
def insBy {α : Type} (goPast : α → α → Bool) (x : α) : List α → List α
  | [] => [x]
  | y :: ys => if goPast x y then y :: insBy goPast x ys else x :: y :: ys

/-- Stable insertion sort. With `goPast` a strict comparison this computes
exactly the output of JS `Array.prototype.sort` (which is stable): the
unique permutation sorted by the comparator in which tied elements keep
their original relative order. -/
def sortByIns {α : Type} (goPast : α → α → Bool) : List α → List α
  | [] => []
  | x :: xs => insBy goPast x (sortByIns goPast xs)

/-- Embeds `median` from utils: `null` on the empty list, else the middle
of the ascending sort, averaging the two middle values on even length. -/
def median (nums : List ℚ) : Option ℚ :=
  if nums.length = 0 then none
  else
    let a := sortByIns (fun x y => decide (y < x)) nums
    let mid := a.length / 2
    if a.length % 2 = 0 then some ((a.getD (mid - 1) 0 + a.getD mid 0) / 2)
    else some (a.getD mid 0)

/-- Embeds the `PRFile` record (additions and deletions are non-negative
integers per the data model; the `|| 0` coercions in the source are
identities on well-typed input). -/
structure PRFile where
  filename : String
  additions : ℕ
  deletions : ℕ
  deriving DecidableEq

/-- Embeds `ClassifiedCounts`. -/
structure ClassifiedCounts where
  F : ℕ
  L : ℕ
  C : ℕ
  T : ℕ
  D : ℕ
  I : ℕ
  H : ℕ
  docsOnly : Bool
  testCoverage : ℚ
  deriving DecidableEq

/-- The mutable accumulator of the `classifyFiles` loop. -/
structure ClassifyState where
  F : ℕ
  L : ℕ
  C : ℕ
  T : ℕ
  D : ℕ
  I : ℕ
  H : ℕ
  docsCount : ℕ
  deriving DecidableEq

/-- One iteration of the `classifyFiles` loop body. -/
def classifyStep (hotspotSet : List String) (st : ClassifyState) (f : PRFile) : ClassifyState :=
  { F := st.F + 1
    L := st.L + (f.additions + f.deletions)
    C := st.C + (if isCorePath f.filename then 1 else 0)
    T := st.T + (if isTestsPath f.filename then 1 else 0)
    D := st.D + (if isDepsPath f.filename then 1 else 0)
    I := st.I + (if isInfraPath f.filename then 1 else 0)
    H := st.H + (if hotspotSet.contains f.filename then 1 else 0)
    docsCount := st.docsCount + (if isDocsPath f.filename then 1 else 0) }

/-- Embeds `classifyFiles`: the loop as a fold, then `docsOnly` and
`testCoverage` computed from the final state. The JS `Set` of hotspot
paths is modelled by a list queried by exact membership. -/
def classifyFiles (files : List PRFile) (hotspotSet : List String) : ClassifiedCounts :=
  let st := files.foldl (classifyStep hotspotSet) ⟨0, 0, 0, 0, 0, 0, 0, 0⟩
  { F := st.F, L := st.L, C := st.C, T := st.T, D := st.D, I := st.I, H := st.H
    docsOnly := decide (files.length > 0) && (st.docsCount == files.length)
    testCoverage := (st.T : ℚ) / max 1 (st.C : ℚ) }

/-- Embeds `computeReviewMinutes`. -/
def computeReviewMinutes (ops : NumOps) (F L C T D I H : ℕ) : ℚ :=
  let sizeUnits := ops.sqrt (max 0 (L : ℚ)) + 2 * (F : ℚ)
  let m_core : ℚ := 1 + 0.15 * min 5 (C : ℚ)
  let m_infra : ℚ := 1 + 0.2 * min 3 (I : ℚ)
  let m_deps : ℚ := 1 + 0.25 * min 2 (D : ℚ)
  let m_hot : ℚ := 1 + 0.1 * min 5 (H : ℚ)
  let m_tests : ℚ := 1 - 0.1 * min 3 (T : ℚ)
  let raw := (sizeUnits / 12) * m_core * m_infra * m_deps * m_hot * m_tests
  clamp 5 90 (jround raw)

/-- The three-valued verdict; the source stores it as the union type of
the green, yellow and red emoji literals. -/
inductive VerdictEmoji where
  | green
  | yellow
  | red
  deriving DecidableEq

/-- Embeds `Scores`. -/
structure Scores where
  S_size : ℚ
  S_deps : ℚ
  S_infra : ℚ
  S_hot : ℚ
  S_quality : ℚ
  base : ℚ
  amp : ℚ
  score : ℚ
  reviewMinutes : ℚ
  verdictEmoji : VerdictEmoji
  deriving DecidableEq

/-- The local `S_size` of `computeScores`. -/
def S_sizeOf (ops : NumOps) (counts : ClassifiedCounts) : ℚ :=
  clamp 0 100 (8 * (counts.F : ℚ) + 12 * ops.log10 (1 + max 0 (counts.L : ℚ)))

/-- The local `S_deps` of `computeScores`. -/
def S_depsOf (counts : ClassifiedCounts) : ℚ := clamp 0 100 (35 * (counts.D : ℚ))

/-- The local `S_infra` of `computeScores`. -/
def S_infraOf (counts : ClassifiedCounts) : ℚ := clamp 0 100 (25 * (counts.I : ℚ))

/-- The local `S_hot` of `computeScores`. -/
def S_hotOf (counts : ClassifiedCounts) : ℚ := clamp 0 100 (20 * (counts.H : ℚ))

/-- The local `S_quality` of `computeScores`. -/
def S_qualityOf (counts : ClassifiedCounts) : ℚ :=
  clamp 0 100 (60 * (1 - min 1 counts.testCoverage))

/-- The local `base` of `computeScores`: the weighted sum of sub-scores. -/
def baseOf (ops : NumOps) (counts : ClassifiedCounts) : ℚ :=
  0.35 * S_sizeOf ops counts + 0.2 * S_qualityOf counts + 0.2 * S_depsOf counts +
    0.15 * S_infraOf counts + 0.1 * S_hotOf counts

/-- The local `amp` of `computeScores`: the sequential `amp += …` bonuses
as one sum, capped at 1.4 as in the source. -/
def ampOf (counts : ClassifiedCounts) : ℚ :=
  min 1.4
    (1 + (if 0 < counts.C ∧ counts.T = 0 then 0.15 else 0)
       + (if 0 < counts.D ∧ 0 < counts.I then 0.1 else 0)
       + (if 0 < counts.C ∧ 0 < counts.D then 0.1 else 0)
       + (if 2 ≤ counts.H then 0.05 else 0))

/-- The final `score` of `computeScores`: the mutable rebinding for the
docs-only cap becomes a conditional. -/
def scoreOf (ops : NumOps) (counts : ClassifiedCounts) : ℚ :=
  let score0 := clamp 0 100 (jround (baseOf ops counts * ampOf counts))
  if counts.docsOnly then min score0 25 else score0

/-- The verdict of `computeScores`: thresholds 39 and 69. -/
def verdictOf (ops : NumOps) (counts : ClassifiedCounts) : VerdictEmoji :=
  if scoreOf ops counts ≤ 39 then VerdictEmoji.green
  else if scoreOf ops counts ≤ 69 then VerdictEmoji.yellow
  else VerdictEmoji.red

/-- Embeds `computeScores`, assembled from its named locals. -/
def computeScores (ops : NumOps) (counts : ClassifiedCounts) : Scores :=
  { S_size := S_sizeOf ops counts
    S_deps := S_depsOf counts
    S_infra := S_infraOf counts
    S_hot := S_hotOf counts
    S_quality := S_qualityOf counts
    base := baseOf ops counts
    amp := ampOf counts
    score := scoreOf ops counts
    reviewMinutes := computeReviewMinutes ops counts.F counts.L counts.C counts.T counts.D
      counts.I counts.H
    verdictEmoji := verdictOf ops counts }

/-- The enumerated driver cause keys of the source's `Driver.key` union
type. -/
inductive DriverKey where
  | coreNoTests
  | depChurn
  | infraTouched
  | hotspotMod
  | largeSize
  | lowCoverage
  deriving DecidableEq

/-- Position of each key in the order `pickDrivers` generates candidates
(each key is pushed at most once, in this fixed order). -/
def keyIdx : DriverKey → ℕ
  | .coreNoTests => 0
  | .largeSize => 1
  | .lowCoverage => 2
  | .depChurn => 3
  | .infraTouched => 4
  | .hotspotMod => 5

/-- Embeds `Driver`. -/
structure Driver where
  key : DriverKey
  label : String
  contribution : ℚ
  deriving DecidableEq

/-- The candidate-generation phase of `pickDrivers`: the conditional
`drivers.push(…)` calls, in source order, as list concatenation. -/
def genDrivers (counts : ClassifiedCounts) (scores : Scores) : List Driver :=
  let bonusCoreNoTests : ℚ := if 0 < counts.C ∧ counts.T = 0 then 12 else 0
  let contribLarge := 0.35 * scores.S_size
  let contribLowTests :=
    0.2 * scores.S_quality + (if counts.testCoverage < 1 then 0 else 0) + bonusCoreNoTests
  let contribDeps :=
    0.2 * scores.S_deps + (if 0 < counts.D ∧ 0 < counts.I then 6 else 0)
      + (if 0 < counts.C ∧ 0 < counts.D then 6 else 0)
  let contribInfra := 0.15 * scores.S_infra
  let contribHot := 0.1 * scores.S_hot + (if 2 ≤ counts.H then 3 else 0)
  (if 0 < counts.C ∧ counts.T = 0 then
    [{ key := DriverKey.coreNoTests, label := "Core code modified without tests",
       contribution := bonusCoreNoTests + 0.15 * 100 }]
   else [])
  ++ [{ key := DriverKey.largeSize, label := "Large change size", contribution := contribLarge }]
  ++ (if counts.testCoverage < 1 then
        [{ key := DriverKey.lowCoverage, label := "Low test coverage",
           contribution := contribLowTests }]
      else [])
  ++ (if 0 < counts.D then
        [{ key := DriverKey.depChurn, label := "Dependency churn above baseline",
           contribution := contribDeps }]
      else [])
  ++ (if 0 < counts.I then
        [{ key := DriverKey.infraTouched, label := "Infra/config touched",
           contribution := contribInfra }]
      else [])
  ++ (if 0 < counts.H then
        [{ key := DriverKey.hotspotMod, label := "Repeated changes in hotspot folders",
           contribution := contribHot }]
      else [])

/-- One `bestByKey.set` step of the dedup loop in `pickDrivers`: a JS
`Map` keeps a replaced key at its original position and appends a fresh
key at the end. -/
def updateBest : List Driver → Driver → List Driver
  | [], d => [d]
  | e :: rest, d =>
    if e.key = d.key then
      (if e.contribution < d.contribution then d :: rest else e :: rest)
    else e :: updateBest rest d

/-- The `bestByKey` dedup pass of `pickDrivers`. -/
def dedupBest (l : List Driver) : List Driver := l.foldl updateBest []

/-- Comparator for the driver sort: `sort((a, b) => b.contribution -
a.contribution)` keeps `y` before `x` exactly when `x.contribution <
y.contribution` (ties keep order: JS sort is stable). -/
def driverGoPast (x y : Driver) : Bool := decide (x.contribution < y.contribution)

/-- Embeds `pickDrivers`: generate, dedup by key, stable-sort by
contribution descending, take the first three. -/
def pickDrivers (counts : ClassifiedCounts) (scores : Scores) : List Driver :=
  (sortByIns driverGoPast (dedupBest (genDrivers counts scores))).take 3

/-- Embeds `suggestedActions`. -/
def suggestedActions (counts : ClassifiedCounts) (score : ℚ) : List String :=
  if counts.docsOnly then ["No action needed (docs-only change)"]
  else
    let acts :=
      (if 0 < counts.C ∧ counts.T = 0 then ["Add targeted tests"] else [])
      ++ (if 70 ≤ score then ["Split this PR"]
          else if 40 ≤ score ∧ (0 < counts.D ∨ 0 < counts.I) then
            ["Add a focused review checklist"]
          else [])
    let acts2 := if acts = [] then ["Proceed with normal review"] else acts
    acts2.take 2

/-- Embeds `AnalyzeResult`. -/
structure AnalyzeResult where
  counts : ClassifiedCounts
  scores : Scores
  driversTop3 : List Driver
  suggestedActions : List String

/-- Embeds `analyze`: the composition of the four core functions. -/
def analyze (ops : NumOps) (files : List PRFile) (hotspotSet : List String) : AnalyzeResult :=
  let counts := classifyFiles files hotspotSet
  let scores := computeScores ops counts
  { counts, scores
    driversTop3 := pickDrivers counts scores
    suggestedActions := suggestedActions counts scores.score }

/-- One `freq.set(f.filename, (freq.get(f.filename) ?? 0) + 1)` step of
`computeBaseline`: a JS `Map` as an insertion-ordered association list. -/
def bump : List (String × ℕ) → String → List (String × ℕ)
  | [], p => [(p, 1)]
  | (q, n) :: rest, p => if q = p then (q, n + 1) :: rest else (q, n) :: bump rest p

/-- The frequency-accumulation loop of `computeBaseline` over a
historical window of per-change file lists. -/
def freqFold (window : List (List PRFile)) : List (String × ℕ) :=
  window.foldl (fun m files => files.foldl (fun m2 f => bump m2 f.filename) m) []

/-- A JS `Set` built from a list: first occurrences, in insertion order. -/
def setDedup (l : List String) : List String :=
  l.foldl (fun acc x => if acc.contains x then acc else acc ++ [x]) []

/-- Comparator for the frequency-entry sort `sort((a, b) => b[1] - a[1])`
(descending by count, stable). -/
def entryGoPast (x y : String × ℕ) : Bool := decide (x.2 < y.2)

/-- Embeds the hotspot derivation of `computeBaseline` (baseline.ts):
sort the frequency entries descending, take the top-10 paths, union with
the paths of frequency ≥ 3. The surrounding I/O (fetching merged PRs and
their files) supplies `window`; the early return on an empty window
yields the empty hotspot list, which this definition also gives. -/
def computeHotspots (window : List (List PRFile)) : List String :=
  let entries := sortByIns entryGoPast (freqFold window)
  let top10 := (entries.take 10).map Prod.fst
  let threshold := (entries.filter (fun e => 3 ≤ e.2)).map Prod.fst
  setDedup (top10 ++ threshold)

/-- Specification-level touch frequency of a path across a window: the
number of file records carrying that filename. -/
def touchCount (p : String) (window : List (List PRFile)) : ℕ :=
  (window.map (fun files => (files.map PRFile.filename).count p)).sum

/-- Value stored for a key in an association list (JS `map.get(p) ?? 0`). -/
def lookupCount : List (String × ℕ) → String → ℕ
  | [], _ => 0
  | (q, n) :: rest, p => if q = p then n else lookupCount rest p

/-- The ranking the spec demands of the displayed drivers: strictly
descending contribution, ties resolved by the order the causes were
generated in (which is the fixed key order of `keyIdx`). -/
def driverOrd (a b : Driver) : Prop :=
  b.contribution < a.contribution ∨
    (a.contribution = b.contribution ∧ keyIdx a.key < keyIdx b.key)

/-- Modelled from the spec's wording of the action decision table
(§4.5 / claim C7): docs-only short-circuits to the single no-action
entry; otherwise the tests rule, then either the split rule (score ≥ 70)
or else the checklist rule (40 ≤ score < 70 and dependency or infra
touched), then the fallback when nothing qualified, truncated to the
first two entries. Compared against the source's `suggestedActions`. -/
def suggestedActionsSpec (counts : ClassifiedCounts) (score : ℚ) : List String :=
  if counts.docsOnly then ["No action needed (docs-only change)"]
  else
    let acts :=
      (if 0 < counts.C ∧ counts.T = 0 then ["Add targeted tests"] else [])
      ++ (if 70 ≤ score then ["Split this PR"] else [])
      ++ (if 40 ≤ score ∧ score < 70 ∧ (0 < counts.D ∨ 0 < counts.I) then
            ["Add a focused review checklist"]
          else [])
    (if acts = [] then ["Proceed with normal review"] else acts).take 2

/-- Membership through stable insertion. -/
theorem insBy_mem {α : Type} (gp : α → α → Bool) (x : α) (l : List α) (z : α) :
    z ∈ insBy gp x l ↔ z = x ∨ z ∈ l := by
  induction l with
  | nil => simp [insBy]
  | cons y ys ih =>
    rw [insBy]
    split
    · simp [ih]
      tauto
    · simp

/-- Stable insertion permutes the cons. -/
theorem insBy_perm {α : Type} (gp : α → α → Bool) (x : α) (l : List α) :
    List.Perm (insBy gp x l) (x :: l) := by
  induction l with
  | nil => rfl
  | cons y ys ih =>
    rw [insBy]
    split
    · exact (ih.cons y).trans (List.Perm.swap x y ys)
    · rfl

/-- Stable insertion sort permutes its input. -/
theorem sortByIns_perm {α : Type} (gp : α → α → Bool) (l : List α) :
    List.Perm (sortByIns gp l) l := by
  induction l with
  | nil => rfl
  | cons x xs ih => exact (insBy_perm gp x (sortByIns gp xs)).trans (ih.cons x)

/-- Membership through stable insertion sort. -/
theorem sortByIns_mem {α : Type} (gp : α → α → Bool) (l : List α) (z : α) :
    z ∈ sortByIns gp l ↔ z ∈ l :=
  (sortByIns_perm gp l).mem_iff

/-- Pairwise preservation through one stable insertion. -/
theorem insBy_pairwise {α : Type} {R : α → α → Prop} (gp : α → α → Bool)
    (hR : Transitive R) (x : α) (l : List α) (hl : l.Pairwise R)
    (hcond : ∀ y ∈ l, (gp x y = true → R y x) ∧ (gp x y = false → R x y)) :
    (insBy gp x l).Pairwise R := by
  induction l with
  | nil => simp [insBy]
  | cons y ys ih =>
    rw [insBy]
    rcases List.pairwise_cons.mp hl with ⟨h1, h2⟩
    split
    next hgp =>
      refine List.pairwise_cons.mpr ⟨?_, ?_⟩
      · intro z hz
        rcases (insBy_mem gp x ys z).mp hz with rfl | hzy
        · exact (hcond y (List.mem_cons_self y ys)).1 hgp
        · exact h1 z hzy
      · exact ih h2 (fun z hz => hcond z (List.mem_cons_of_mem y hz))
    next hgp =>
      refine List.pairwise_cons.mpr ⟨?_, hl⟩
      intro z hz
      rcases List.mem_cons.mp hz with rfl | hzy
      · exact (hcond z (List.mem_cons_self z ys)).2 (Bool.of_not_eq_true hgp)
      · exact hR ((hcond y (List.mem_cons_self y ys)).2 (Bool.of_not_eq_true hgp)) (h1 z hzy)

/-- Stable insertion sort yields a `Pairwise R` list whenever the input
is pairwise compatible with the comparator in the sense below. -/
theorem sortByIns_pairwise {α : Type} {R : α → α → Prop} (gp : α → α → Bool)
    (hR : Transitive R) (l : List α)
    (h : l.Pairwise fun a b => (gp a b = true → R b a) ∧ (gp a b = false → R a b)) :
    (sortByIns gp l).Pairwise R := by
  induction l with
  | nil => simp [sortByIns]
  | cons x xs ih =>
    rw [sortByIns]
    rcases List.pairwise_cons.mp h with ⟨h1, h2⟩
    exact insBy_pairwise gp hR x (sortByIns gp xs) (ih h2)
      (fun y hy => h1 y ((sortByIns_mem gp xs y).mp hy))

/-- Lower bound of `clamp`. -/
theorem clamp_lower (lo hi v : ℚ) : lo ≤ clamp lo hi v := le_max_left lo _

/-- Upper bound of `clamp`. -/
theorem clamp_upper (lo hi v : ℚ) (h : lo ≤ hi) : clamp lo hi v ≤ hi :=
  max_le h (min_le_left hi v)

/-- When the argument is already in range, `clamp` is the identity. -/
theorem clamp_eq_self (lo hi v : ℚ) (h1 : lo ≤ v) (h2 : v ≤ hi) : clamp lo hi v = v := by
  rw [clamp, min_eq_right h2, max_eq_right h1]

/-- Characterization of the `classifyFiles` loop as per-field sums and
predicate counts. -/
theorem classify_foldl_char (hs : List String) (files : List PRFile) (st : ClassifyState) :
    files.foldl (classifyStep hs) st =
      ⟨st.F + files.length,
       st.L + (files.map (fun f => f.additions + f.deletions)).sum,
       st.C + files.countP (fun f => isCorePath f.filename),
       st.T + files.countP (fun f => isTestsPath f.filename),
       st.D + files.countP (fun f => isDepsPath f.filename),
       st.I + files.countP (fun f => isInfraPath f.filename),
       st.H + files.countP (fun f => hs.contains f.filename),
       st.docsCount + files.countP (fun f => isDocsPath f.filename)⟩ := by
  induction files generalizing st with
  | nil => simp
  | cons f fs ih =>
    rw [List.foldl_cons, ih]
    simp only [classifyStep, List.length_cons, List.map_cons, List.sum_cons,
      List.countP_cons, ClassifyState.mk.injEq]
    refine ⟨by omega, by omega, ?_, ?_, ?_, ?_, ?_, ?_⟩ <;>
      · split <;> omega

/-- The fields of `classifyFiles` in closed form. -/
theorem classifyFiles_eq (files : List PRFile) (hs : List String) :
    classifyFiles files hs =
      { F := files.length
        L := (files.map (fun f => f.additions + f.deletions)).sum
        C := files.countP (fun f => isCorePath f.filename)
        T := files.countP (fun f => isTestsPath f.filename)
        D := files.countP (fun f => isDepsPath f.filename)
        I := files.countP (fun f => isInfraPath f.filename)
        H := files.countP (fun f => hs.contains f.filename)
        docsOnly := decide (files.length > 0) &&
          (files.countP (fun f => isDocsPath f.filename) == files.length)
        testCoverage := (files.countP (fun f => isTestsPath f.filename) : ℚ) /
          max 1 (files.countP (fun f => isCorePath f.filename) : ℚ) } := by
  rw [classifyFiles, classify_foldl_char]
  simp

/-- The final score of `computeScores` is always within `[0, 100]`. -/
theorem computeScores_score_bounds (ops : NumOps) (counts : ClassifiedCounts) :
    0 ≤ (computeScores ops counts).score ∧ (computeScores ops counts).score ≤ 100 := by
  have hrw : (computeScores ops counts).score = scoreOf ops counts := rfl
  rw [hrw]
  simp only [scoreOf]
  by_cases hd : counts.docsOnly = true
  · rw [if_pos hd]
    exact ⟨le_min (clamp_lower _ _ _) (by norm_num), le_trans (min_le_right _ _) (by norm_num)⟩
  · rw [if_neg hd]
    exact ⟨clamp_lower _ _ _, clamp_upper _ _ _ (by norm_num)⟩

/-- The review-minutes estimate of `computeScores` is always within
`[5, 90]`. -/
theorem computeScores_minutes_bounds (ops : NumOps) (counts : ClassifiedCounts) :
    5 ≤ (computeScores ops counts).reviewMinutes ∧
      (computeScores ops counts).reviewMinutes ≤ 90 := by
  have hrw : (computeScores ops counts).reviewMinutes =
      computeReviewMinutes ops counts.F counts.L counts.C counts.T counts.D counts.I
        counts.H := rfl
  rw [hrw]
  simp only [computeReviewMinutes]
  exact ⟨clamp_lower _ _ _, clamp_upper _ _ _ (by norm_num)⟩

/-- The scores record produced by `analyze` is the one `computeScores`
computes from the classified counts. -/
theorem analyze_scores_eq (ops : NumOps) (files : List PRFile) (hs : List String) :
    (analyze ops files hs).scores = computeScores ops (classifyFiles files hs) := by
  simp [analyze]

/-- Claim C1: for every well-typed input (any file list, possibly empty,
and any hotspot set), `analyze` returns a complete result whose final
score lies in `[0, 100]` and whose `reviewMinutes` lies in `[5, 90]`. -/
theorem analyze_score_and_minutes_in_range (ops : NumOps) (files : List PRFile)
    (hs : List String) :
    0 ≤ (analyze ops files hs).scores.score ∧ (analyze ops files hs).scores.score ≤ 100 ∧
      5 ≤ (analyze ops files hs).scores.reviewMinutes ∧
      (analyze ops files hs).scores.reviewMinutes ≤ 90 := by
  rw [analyze_scores_eq]
  have h1 := computeScores_score_bounds ops (classifyFiles files hs)
  have h2 := computeScores_minutes_bounds ops (classifyFiles files hs)
  exact ⟨h1.1, h1.2, h2.1, h2.2⟩

/-- Claim C8: for every hotspot set, classifying the empty file list
returns all numeric counts zero and `docsOnly = false`. -/
theorem classify_empty_all_zero (hs : List String) :
    (classifyFiles [] hs).F = 0 ∧ (classifyFiles [] hs).L = 0 ∧
      (classifyFiles [] hs).C = 0 ∧ (classifyFiles [] hs).T = 0 ∧
      (classifyFiles [] hs).D = 0 ∧ (classifyFiles [] hs).I = 0 ∧
      (classifyFiles [] hs).H = 0 ∧ (classifyFiles [] hs).docsOnly = false := by
  simp [classifyFiles]

/-- Claim C9: classification is order-independent — permuting the file
list leaves the `ClassifiedCounts` unchanged. -/
theorem classify_perm_invariant (files1 files2 : List PRFile) (hs : List String)
    (h : List.Perm files1 files2) :
    classifyFiles files1 hs = classifyFiles files2 hs := by
  rw [classifyFiles_eq, classifyFiles_eq]
  have hlen := h.length_eq
  have hsum := (h.map (fun f => f.additions + f.deletions)).sum_eq
  have hc := h.countP_eq (fun f => isCorePath f.filename)
  have ht := h.countP_eq (fun f => isTestsPath f.filename)
  have hd := h.countP_eq (fun f => isDepsPath f.filename)
  have hi := h.countP_eq (fun f => isInfraPath f.filename)
  have hh := h.countP_eq (fun f => hs.contains f.filename)
  have hh2 := h.countP_eq (fun f => decide (f.filename ∈ hs))
  have hdocs := h.countP_eq (fun f => isDocsPath f.filename)
  simp [ClassifiedCounts.mk.injEq, hlen, hsum, hc, ht, hd, hi, hh, hh2, hdocs]

/-- Witness for claim C9 at a concrete two-file swap. -/
theorem classify_perm_invariant_witness :
    classifyFiles [⟨"src/a.ext", 50, 10⟩, ⟨"docs/readme.ext", 5, 2⟩] [] =
      classifyFiles [⟨"docs/readme.ext", 5, 2⟩, ⟨"src/a.ext", 50, 10⟩] [] :=
  classify_perm_invariant _ _ _ (List.Perm.swap _ _ _)

/-- Claim C6: `median` of the empty list is absent, of a singleton is its
element, and of `[1, 3]` is the average `2` of the two middle values. -/
theorem median_spec_cases :
    median [] = none ∧ (∀ x : ℚ, median [x] = some x) ∧ median [1, 3] = some 2 := by
  refine ⟨rfl, ?_, ?_⟩
  · intro x
    simp [median, sortByIns, insBy]
  · norm_num [median, sortByIns, insBy]

/-- Claim C7: the action recommender agrees everywhere with the spec's
decision table `suggestedActionsSpec`. -/
theorem suggestedActions_matches_table (counts : ClassifiedCounts) (score : ℚ) :
    suggestedActions counts score = suggestedActionsSpec counts score := by
  unfold suggestedActions suggestedActionsSpec
  by_cases hd : counts.docsOnly = true
  · simp [hd]
  · simp only [Bool.not_eq_true] at hd
    simp only [hd, Bool.false_eq_true, if_false]
    by_cases h70 : (70 : ℚ) ≤ score
    · have h3 : ¬(40 ≤ score ∧ score < 70 ∧ (0 < counts.D ∨ 0 < counts.I)) := by
        rintro ⟨-, h, -⟩
        linarith
      simp [h70, h3]
    · by_cases h40 : (40 : ℚ) ≤ score ∧ (0 < counts.D ∨ 0 < counts.I)
      · have h3 : 40 ≤ score ∧ score < 70 ∧ (0 < counts.D ∨ 0 < counts.I) :=
          ⟨h40.1, by linarith, h40.2⟩
        simp [h70, h40, h3]
      · have h3 : ¬(40 ≤ score ∧ score < 70 ∧ (0 < counts.D ∨ 0 < counts.I)) := by
          rintro ⟨ha, -, hc2⟩
          exact h40 ⟨ha, hc2⟩
        simp [h70, h40, h3]

/-- The classified counts of Scenario A: one core file `src/a.ext` with
50 additions and 10 deletions, empty hotspot set. -/
theorem classify_scenarioA :
    classifyFiles [⟨"src/a.ext", 50, 10⟩] [] = ⟨1, 60, 1, 0, 0, 0, 0, false, 0⟩ := by
  simp [classifyFiles, classifyStep]
  norm_num [show isCorePath "src/a.ext" = true from by decide,
    show isDocsPath "src/a.ext" = false from by decide,
    show isTestsPath "src/a.ext" = false from by decide,
    show isDepsPath "src/a.ext" = false from by decide,
    show isInfraPath "src/a.ext" = false from by decide]

/-- The counts record produced by `analyze` is the classification of its
input. -/
theorem analyze_counts_eq (ops : NumOps) (files : List PRFile) (hs : List String) :
    (analyze ops files hs).counts = classifyFiles files hs := by
  simp [analyze]

/-- Claim C2: Scenario A — for `src/a.ext` with 50 additions and 10
deletions and an empty hotspot set, classification yields `F=1, L=60,
C=1, T=0`, and the score engine yields `S_size ≈ 29.4`, `S_quality =
60`, `base ≈ 22.3`, `amp = 1.15`, score 26, `reviewMinutes` 5 and the
low (green) verdict. The hypotheses pin the abstracted float operations
to intervals containing the true values of `log10 61` and `sqrt 60`. -/
theorem scenarioA_eval (ops : NumOps)
    (hl1 : 17853 / 10000 ≤ ops.log10 61) (hl2 : ops.log10 61 ≤ 17854 / 10000)
    (hq1 : 7745 / 1000 ≤ ops.sqrt 60) (hq2 : ops.sqrt 60 ≤ 7746 / 1000) :
    (analyze ops [⟨"src/a.ext", 50, 10⟩] []).counts.F = 1 ∧
      (analyze ops [⟨"src/a.ext", 50, 10⟩] []).counts.L = 60 ∧
      (analyze ops [⟨"src/a.ext", 50, 10⟩] []).counts.C = 1 ∧
      (analyze ops [⟨"src/a.ext", 50, 10⟩] []).counts.T = 0 ∧
      |(analyze ops [⟨"src/a.ext", 50, 10⟩] []).scores.S_size - 294 / 10| ≤ 1 / 20 ∧
      (analyze ops [⟨"src/a.ext", 50, 10⟩] []).scores.S_quality = 60 ∧
      |(analyze ops [⟨"src/a.ext", 50, 10⟩] []).scores.base - 223 / 10| ≤ 1 / 20 ∧
      (analyze ops [⟨"src/a.ext", 50, 10⟩] []).scores.amp = 23 / 20 ∧
      (analyze ops [⟨"src/a.ext", 50, 10⟩] []).scores.score = 26 ∧
      (analyze ops [⟨"src/a.ext", 50, 10⟩] []).scores.reviewMinutes = 5 ∧
      (analyze ops [⟨"src/a.ext", 50, 10⟩] []).scores.verdictEmoji = VerdictEmoji.green := by
  rw [analyze_counts_eq, analyze_scores_eq, classify_scenarioA]
  have hS : S_sizeOf ops ⟨1, 60, 1, 0, 0, 0, 0, false, 0⟩ = 8 + 12 * ops.log10 61 := by
    have h1 : S_sizeOf ops ⟨1, 60, 1, 0, 0, 0, 0, false, 0⟩ =
        clamp 0 100 (8 + 12 * ops.log10 61) := by
      simp only [S_sizeOf]
      norm_num
    rw [h1]
    exact clamp_eq_self _ _ _ (by nlinarith) (by nlinarith)
  have hQ : S_qualityOf ⟨1, 60, 1, 0, 0, 0, 0, false, 0⟩ = 60 := by
    norm_num [S_qualityOf, clamp]
  have hD : S_depsOf ⟨1, 60, 1, 0, 0, 0, 0, false, 0⟩ = 0 := by
    norm_num [S_depsOf, clamp]
  have hI : S_infraOf ⟨1, 60, 1, 0, 0, 0, 0, false, 0⟩ = 0 := by
    norm_num [S_infraOf, clamp]
  have hH : S_hotOf ⟨1, 60, 1, 0, 0, 0, 0, false, 0⟩ = 0 := by
    norm_num [S_hotOf, clamp]
  have hB : baseOf ops ⟨1, 60, 1, 0, 0, 0, 0, false, 0⟩ =
      (8 + 12 * ops.log10 61) * (35 / 100) + 12 := by
    simp only [baseOf, hS, hQ, hD, hI, hH]
    ring
  have hA : ampOf ⟨1, 60, 1, 0, 0, 0, 0, false, 0⟩ = 23 / 20 := by
    norm_num [ampOf]
  have hscore : scoreOf ops ⟨1, 60, 1, 0, 0, 0, 0, false, 0⟩ = 26 := by
    have hfl : ⌊baseOf ops ⟨1, 60, 1, 0, 0, 0, 0, false, 0⟩ *
        ampOf ⟨1, 60, 1, 0, 0, 0, 0, false, 0⟩ + 1 / 2⌋ = (26 : ℤ) := by
      rw [hB, hA, Int.floor_eq_iff]
      constructor
      · push_cast
        nlinarith
      · push_cast
        nlinarith
    simp only [scoreOf, jround, hfl]
    norm_num [clamp]
  have hmin : computeReviewMinutes ops 1 60 1 0 0 0 0 = 5 := by
    simp only [computeReviewMinutes]
    norm_num
    have hfl : ⌊(ops.sqrt 60 + 2) / 12 * (23 / 20) + 1 / 2⌋ = (1 : ℤ) := by
      rw [Int.floor_eq_iff]
      constructor
      · push_cast
        nlinarith
      · push_cast
        nlinarith
    simp only [jround, hfl]
    norm_num [clamp]
  refine ⟨rfl, rfl, rfl, rfl, ?_, hQ, ?_, hA, hscore, hmin, ?_⟩
  · have hproj : (computeScores ops ⟨1, 60, 1, 0, 0, 0, 0, false, 0⟩).S_size =
        S_sizeOf ops ⟨1, 60, 1, 0, 0, 0, 0, false, 0⟩ := rfl
    rw [hproj, hS, abs_le]
    constructor
    · nlinarith
    · nlinarith
  · have hproj : (computeScores ops ⟨1, 60, 1, 0, 0, 0, 0, false, 0⟩).base =
        baseOf ops ⟨1, 60, 1, 0, 0, 0, 0, false, 0⟩ := rfl
    rw [hproj, hB, abs_le]
    constructor
    · nlinarith
    · nlinarith
  · have hproj : (computeScores ops ⟨1, 60, 1, 0, 0, 0, 0, false, 0⟩).verdictEmoji =
        verdictOf ops ⟨1, 60, 1, 0, 0, 0, 0, false, 0⟩ := rfl
    rw [hproj]
    simp only [verdictOf, hscore]
    norm_num

/-- Witness for claim C2 at a concrete interpretation of the float
operations (constants within the stated intervals). -/
theorem scenarioA_eval_witness :
    ((17853 / 10000 : ℚ) ≤ 178533 / 100000 ∧ (178533 / 100000 : ℚ) ≤ 17854 / 10000 ∧
      (7745 / 1000 : ℚ) ≤ 774596 / 100000 ∧ (774596 / 100000 : ℚ) ≤ 7746 / 1000) ∧
      (analyze ⟨fun _ => 178533 / 100000, fun _ => 774596 / 100000⟩
        [⟨"src/a.ext", 50, 10⟩] []).scores.score = 26 ∧
      (analyze ⟨fun _ => 178533 / 100000, fun _ => 774596 / 100000⟩
        [⟨"src/a.ext", 50, 10⟩] []).scores.reviewMinutes = 5 :=
  ⟨⟨by norm_num, by norm_num, by norm_num, by norm_num⟩,
    (scenarioA_eval ⟨fun _ => 178533 / 100000, fun _ => 774596 / 100000⟩
      (by norm_num) (by norm_num) (by norm_num) (by norm_num)).2.2.2.2.2.2.2.2.1,
    (scenarioA_eval ⟨fun _ => 178533 / 100000, fun _ => 774596 / 100000⟩
      (by norm_num) (by norm_num) (by norm_num) (by norm_num)).2.2.2.2.2.2.2.2.2.1⟩

/-- The suggested actions produced by `analyze` come from the action
table applied to the classification and the final score. -/
theorem analyze_actions_eq (ops : NumOps) (files : List PRFile) (hs : List String) :
    (analyze ops files hs).suggestedActions =
      suggestedActions (classifyFiles files hs)
        ((computeScores ops (classifyFiles files hs)).score) := by
  simp [analyze]

/-- Whenever the classification says docs-only, the final score is capped
at 25. -/
theorem scoreOf_le_25_of_docsOnly (ops : NumOps) (counts : ClassifiedCounts)
    (h : counts.docsOnly = true) : (computeScores ops counts).score ≤ 25 := by
  have hrw : (computeScores ops counts).score = scoreOf ops counts := rfl
  rw [hrw]
  simp only [scoreOf]
  rw [if_pos h]
  exact min_le_right _ _

/-- A non-empty file list in which every path is a documentation path
classifies as docs-only. -/
theorem classify_docsOnly_of_all_docs (files : List PRFile) (hs : List String)
    (hne : files ≠ []) (hall : ∀ f ∈ files, isDocsPath f.filename = true) :
    (classifyFiles files hs).docsOnly = true := by
  rw [classifyFiles_eq]
  have hcount : files.countP (fun f => isDocsPath f.filename) = files.length :=
    List.countP_eq_length.mpr (by intro a ha; simpa using hall a ha)
  have hlen : 0 < files.length := List.length_pos.mpr hne
  simp [hcount, hlen]

/-- The classified counts of Scenario B: one docs file `docs/readme.ext`
with 5 additions and 2 deletions, empty hotspot set. -/
theorem classify_scenarioB :
    classifyFiles [⟨"docs/readme.ext", 5, 2⟩] [] = ⟨1, 7, 0, 0, 0, 0, 0, true, 0⟩ := by
  simp [classifyFiles, classifyStep]
  norm_num [show isCorePath "docs/readme.ext" = false from by decide,
    show isDocsPath "docs/readme.ext" = true from by decide,
    show isTestsPath "docs/readme.ext" = false from by decide,
    show isDepsPath "docs/readme.ext" = false from by decide,
    show isInfraPath "docs/readme.ext" = false from by decide]

/-- Claim C3: every non-empty all-docs file list is classified docs-only
and scores at most 25; in particular Scenario B (`docs/readme.ext`, 5
additions, 2 deletions) scores exactly 19 and recommends only the
no-action entry. The second part's hypotheses pin the abstracted
`log10` to an interval containing the true value of `log10 8`. -/
theorem docsOnly_cap_and_scenarioB :
    (∀ (ops : NumOps) (files : List PRFile) (hs : List String), files ≠ [] →
      (∀ f ∈ files, isDocsPath f.filename = true) →
      (classifyFiles files hs).docsOnly = true ∧
        (computeScores ops (classifyFiles files hs)).score ≤ 25) ∧
    (∀ ops : NumOps, 9030 / 10000 ≤ ops.log10 8 → ops.log10 8 ≤ 9031 / 10000 →
      (analyze ops [⟨"docs/readme.ext", 5, 2⟩] []).scores.score = 19 ∧
        (analyze ops [⟨"docs/readme.ext", 5, 2⟩] []).suggestedActions =
          ["No action needed (docs-only change)"]) := by
  constructor
  · intro ops files hs hne hall
    have hdocs := classify_docsOnly_of_all_docs files hs hne hall
    exact ⟨hdocs, scoreOf_le_25_of_docsOnly ops _ hdocs⟩
  · intro ops hl1 hl2
    rw [analyze_scores_eq, analyze_actions_eq, classify_scenarioB]
    have hS : S_sizeOf ops ⟨1, 7, 0, 0, 0, 0, 0, true, 0⟩ = 8 + 12 * ops.log10 8 := by
      have h1 : S_sizeOf ops ⟨1, 7, 0, 0, 0, 0, 0, true, 0⟩ =
          clamp 0 100 (8 + 12 * ops.log10 8) := by
        simp only [S_sizeOf]
        norm_num
      rw [h1]
      exact clamp_eq_self _ _ _ (by nlinarith) (by nlinarith)
    have hQ : S_qualityOf ⟨1, 7, 0, 0, 0, 0, 0, true, 0⟩ = 60 := by
      norm_num [S_qualityOf, clamp]
    have hD : S_depsOf ⟨1, 7, 0, 0, 0, 0, 0, true, 0⟩ = 0 := by
      norm_num [S_depsOf, clamp]
    have hI : S_infraOf ⟨1, 7, 0, 0, 0, 0, 0, true, 0⟩ = 0 := by
      norm_num [S_infraOf, clamp]
    have hH : S_hotOf ⟨1, 7, 0, 0, 0, 0, 0, true, 0⟩ = 0 := by
      norm_num [S_hotOf, clamp]
    have hB : baseOf ops ⟨1, 7, 0, 0, 0, 0, 0, true, 0⟩ =
        (8 + 12 * ops.log10 8) * (35 / 100) + 12 := by
      simp only [baseOf, hS, hQ, hD, hI, hH]
      ring
    have hA : ampOf ⟨1, 7, 0, 0, 0, 0, 0, true, 0⟩ = 1 := by
      norm_num [ampOf]
    have hscore : scoreOf ops ⟨1, 7, 0, 0, 0, 0, 0, true, 0⟩ = 19 := by
      have hfl : ⌊baseOf ops ⟨1, 7, 0, 0, 0, 0, 0, true, 0⟩ *
          ampOf ⟨1, 7, 0, 0, 0, 0, 0, true, 0⟩ + 1 / 2⌋ = (19 : ℤ) := by
        rw [hB, hA, Int.floor_eq_iff]
        constructor
        · push_cast
          nlinarith
        · push_cast
          nlinarith
      simp only [scoreOf, jround, hfl]
      norm_num [clamp]
    refine ⟨hscore, ?_⟩
    simp [suggestedActions]

/-- Witness for claim C3: both parts instantiated at Scenario B with a
concrete interpretation of the float operations. -/
theorem docsOnly_cap_and_scenarioB_witness :
    (([⟨"docs/readme.ext", 5, 2⟩] : List PRFile) ≠ [] ∧
      (classifyFiles [⟨"docs/readme.ext", 5, 2⟩] []).docsOnly = true ∧
      (computeScores ⟨fun _ => 90309 / 100000, fun _ => 0⟩
        (classifyFiles [⟨"docs/readme.ext", 5, 2⟩] [])).score ≤ 25) ∧
    ((9030 / 10000 : ℚ) ≤ 90309 / 100000 ∧ (90309 / 100000 : ℚ) ≤ 9031 / 10000 ∧
      (analyze ⟨fun _ => 90309 / 100000, fun _ => 0⟩
        [⟨"docs/readme.ext", 5, 2⟩] []).scores.score = 19) :=
  ⟨⟨by decide,
    docsOnly_cap_and_scenarioB.1 ⟨fun _ => 90309 / 100000, fun _ => 0⟩
      [⟨"docs/readme.ext", 5, 2⟩] [] (by decide)
      (by intro g hg; rw [List.mem_singleton] at hg; subst hg; decide)⟩,
    by norm_num,
    by norm_num,
    (docsOnly_cap_and_scenarioB.2 ⟨fun _ => 90309 / 100000, fun _ => 0⟩
      (by norm_num) (by norm_num)).1⟩

/-- The classified counts of the overlap input `src/readme.md`: core by
prefix, docs by suffix. -/
theorem classify_overlap :
    classifyFiles [⟨"src/readme.md", 50, 10⟩] [] = ⟨1, 60, 1, 0, 0, 0, 0, true, 0⟩ := by
  simp [classifyFiles, classifyStep]
  norm_num [show isCorePath "src/readme.md" = true from by decide,
    show isDocsPath "src/readme.md" = true from by decide,
    show isTestsPath "src/readme.md" = false from by decide,
    show isDepsPath "src/readme.md" = false from by decide,
    show isInfraPath "src/readme.md" = false from by decide]

/-- Claim C10: `src/readme.md` matches both the docs and the core
predicate, so the classification is docs-only with an untested core
change (`C > 0`, `T = 0`); the untested-core amplification still fires
(`amp = 1.15`) but the docs-only rules win: the score is capped at 25
and the only suggested action is the no-action entry. -/
theorem docs_and_core_overlap (ops : NumOps) :
    isDocsPath "src/readme.md" = true ∧ isCorePath "src/readme.md" = true ∧
      (classifyFiles [⟨"src/readme.md", 50, 10⟩] []).docsOnly = true ∧
      (classifyFiles [⟨"src/readme.md", 50, 10⟩] []).C = 1 ∧
      (classifyFiles [⟨"src/readme.md", 50, 10⟩] []).T = 0 ∧
      (computeScores ops (classifyFiles [⟨"src/readme.md", 50, 10⟩] [])).amp = 23 / 20 ∧
      (computeScores ops (classifyFiles [⟨"src/readme.md", 50, 10⟩] [])).score ≤ 25 ∧
      (analyze ops [⟨"src/readme.md", 50, 10⟩] []).suggestedActions =
        ["No action needed (docs-only change)"] := by
  have hdocs : (classifyFiles [⟨"src/readme.md", 50, 10⟩] []).docsOnly = true := by
    rw [classify_overlap]
  refine ⟨by decide, by decide, hdocs, by rw [classify_overlap], by rw [classify_overlap],
    ?_, scoreOf_le_25_of_docsOnly ops _ hdocs, ?_⟩
  · rw [classify_overlap]
    have hrw : (computeScores ops ⟨1, 60, 1, 0, 0, 0, 0, true, 0⟩).amp =
        ampOf ⟨1, 60, 1, 0, 0, 0, 0, true, 0⟩ := rfl
    rw [hrw]
    norm_num [ampOf]
  · rw [analyze_actions_eq, classify_overlap]
    simp [suggestedActions]

/-- The driver ranking relation is transitive. -/
theorem driverOrd_trans : Transitive driverOrd := by
  intro a b c hab hbc
  rcases hab with h1 | ⟨h1, h2⟩ <;> rcases hbc with h3 | ⟨h3, h4⟩
  · exact Or.inl (lt_trans h3 h1)
  · exact Or.inl (h3 ▸ h1)
  · exact Or.inl (h1 ▸ h3)
  · exact Or.inr ⟨h1.trans h3, h2.trans h4⟩

/-- Pairwise increase of key indices over the six conditional candidate
segments, abstracted over the candidate records themselves. -/
theorem pairwise_keyIdx_of_segments
    (A B E F G : Prop) [Decidable A] [Decidable B] [Decidable E] [Decidable F] [Decidable G]
    (d0 d1 d2 d3 d4 d5 : Driver)
    (h0 : keyIdx d0.key = 0) (h1 : keyIdx d1.key = 1) (h2 : keyIdx d2.key = 2)
    (h3 : keyIdx d3.key = 3) (h4 : keyIdx d4.key = 4) (h5 : keyIdx d5.key = 5) :
    ((if A then [d0] else []) ++ [d1] ++ (if B then [d2] else []) ++
      (if E then [d3] else []) ++ (if F then [d4] else []) ++
      (if G then [d5] else [])).Pairwise (fun a b => keyIdx a.key < keyIdx b.key) := by
  split_ifs <;> simp_all [List.pairwise_cons]

/-- The candidates `pickDrivers` generates carry strictly increasing key
indices: each cause is pushed at most once, in the fixed source order. -/
theorem genDrivers_pairwise_keyIdx (counts : ClassifiedCounts) (scores : Scores) :
    (genDrivers counts scores).Pairwise (fun a b => keyIdx a.key < keyIdx b.key) := by
  simp only [genDrivers]
  exact pairwise_keyIdx_of_segments _ _ _ _ _ _ _ _ _ _ _ rfl rfl rfl rfl rfl rfl

/-- The generated candidate keys are pairwise distinct. -/
theorem genDrivers_keys_nodup (counts : ClassifiedCounts) (scores : Scores) :
    ((genDrivers counts scores).map Driver.key).Nodup := by
  have h := genDrivers_pairwise_keyIdx counts scores
  have h2 : (genDrivers counts scores).Pairwise (fun a b => a.key ≠ b.key) := by
    refine h.imp ?_
    intro a b hlt heq
    rw [heq] at hlt
    exact lt_irrefl _ hlt
  simpa [List.Nodup, List.pairwise_map] using h2

/-- Inserting a fresh key into the dedup accumulator appends it. -/
theorem updateBest_not_mem (acc : List Driver) (d : Driver)
    (h : d.key ∉ acc.map Driver.key) : updateBest acc d = acc ++ [d] := by
  induction acc with
  | nil => rfl
  | cons e rest ih =>
    simp only [List.map_cons, List.mem_cons, not_or] at h
    rw [updateBest, if_neg (fun he => h.1 he.symm), ih h.2]
    simp

/-- The dedup fold is the identity once all keys are distinct. -/
theorem dedupBest_aux (l : List Driver) : ∀ acc : List Driver,
    ((acc ++ l).map Driver.key).Nodup → l.foldl updateBest acc = acc ++ l := by
  induction l with
  | nil =>
    intro acc _
    simp
  | cons d ds ih =>
    intro acc h
    rw [List.foldl_cons]
    have hd : d.key ∉ acc.map Driver.key := by
      intro hmem
      rw [List.map_append] at h
      have hdisj := (List.nodup_append.mp h).2.2
      exact hdisj hmem (by simp)
    rw [updateBest_not_mem acc d hd]
    have hres := ih (acc ++ [d]) (by simpa using h)
    simpa using hres

/-- On candidate lists with distinct keys — as `pickDrivers` always
generates — the JS-`Map` dedup is the identity. -/
theorem dedupBest_eq_self (l : List Driver) (h : (l.map Driver.key).Nodup) :
    dedupBest l = l := by
  have := dedupBest_aux l [] (by simpa using h)
  simpa [dedupBest] using this

/-- Claim C4: every list `pickDrivers` returns has length at most 3, no
two drivers with the same key, and is ranked by `driverOrd` — strictly
descending contribution with ties kept in generation order — hence in
particular non-increasing contributions. -/
theorem driversTop3_shape (counts : ClassifiedCounts) (scores : Scores) :
    (pickDrivers counts scores).length ≤ 3 ∧
      ((pickDrivers counts scores).map Driver.key).Nodup ∧
      (pickDrivers counts scores).Pairwise driverOrd ∧
      (pickDrivers counts scores).Pairwise
        (fun a b => b.contribution ≤ a.contribution) := by
  have hnd := genDrivers_keys_nodup counts scores
  have hded : dedupBest (genDrivers counts scores) = genDrivers counts scores :=
    dedupBest_eq_self _ hnd
  have hsorted : (sortByIns driverGoPast (genDrivers counts scores)).Pairwise driverOrd := by
    apply sortByIns_pairwise driverGoPast driverOrd_trans
    refine (genDrivers_pairwise_keyIdx counts scores).imp ?_
    intro a b hlt
    constructor
    · intro hgp
      exact Or.inl (by simpa [driverGoPast] using hgp)
    · intro hgp
      have hle : ¬ a.contribution < b.contribution := by simpa [driverGoPast] using hgp
      rcases lt_or_eq_of_le (not_lt.mp hle) with hcase | hcase
      · exact Or.inl hcase
      · exact Or.inr ⟨hcase.symm, hlt⟩
  have hperm : List.Perm ((sortByIns driverGoPast (genDrivers counts scores)).map Driver.key)
      ((genDrivers counts scores).map Driver.key) :=
    (sortByIns_perm driverGoPast (genDrivers counts scores)).map Driver.key
  have hsortnd : ((sortByIns driverGoPast (genDrivers counts scores)).map Driver.key).Nodup :=
    hperm.nodup_iff.mpr hnd
  refine ⟨?_, ?_, ?_, ?_⟩
  · simp only [pickDrivers, hded]
    rw [List.length_take]
    exact min_le_left _ _
  · simp only [pickDrivers, hded]
    exact hsortnd.sublist ((List.take_sublist _ _).map Driver.key)
  · simp only [pickDrivers, hded]
    exact hsorted.sublist (List.take_sublist _ _)
  · simp only [pickDrivers, hded]
    refine ((hsorted.sublist (List.take_sublist _ _)).imp ?_)
    intro a b hab
    rcases hab with h | ⟨h, -⟩
    · exact le_of_lt h
    · exact le_of_eq h.symm

/-- One `bump` adds exactly one to the stored count of the bumped key. -/
theorem bump_lookup (m : List (String × ℕ)) (q p : String) :
    lookupCount (bump m q) p = lookupCount m p + (if q = p then 1 else 0) := by
  induction m with
  | nil =>
    simp only [bump, lookupCount]
    split <;> simp
  | cons e rest ih =>
    obtain ⟨r, n⟩ := e
    simp only [bump]
    by_cases hrq : r = q
    · rw [if_pos hrq]
      simp only [lookupCount]
      by_cases hrp : r = p
      · rw [if_pos hrp, if_pos hrp, if_pos (hrq.symm.trans hrp)]
      · rw [if_neg hrp, if_neg hrp, if_neg (fun h : q = p => hrp (hrq.trans h))]
        omega
    · rw [if_neg hrq]
      simp only [lookupCount]
      by_cases hrp : r = p
      · rw [if_pos hrp, if_pos hrp, if_neg (fun h : q = p => hrq (hrp.trans h.symm))]
        omega
      · rw [if_neg hrp, if_neg hrp, ih]

/-- The key list after a `bump`: unchanged for a known key, appended for
a fresh one. -/
theorem bump_keys (m : List (String × ℕ)) (q : String) :
    (bump m q).map Prod.fst =
      if q ∈ m.map Prod.fst then m.map Prod.fst else m.map Prod.fst ++ [q] := by
  induction m with
  | nil => simp [bump]
  | cons e rest ih =>
    obtain ⟨r, n⟩ := e
    by_cases hrq : r = q
    · subst hrq
      simp [bump]
    · have hqr : ¬ q = r := fun h => hrq h.symm
      simp only [bump, if_neg hrq, List.map_cons, ih, List.mem_cons, hqr, false_or]
      split <;> simp

/-- A `bump` preserves distinctness of the keys. -/
theorem bump_nodup (m : List (String × ℕ)) (q : String)
    (h : (m.map Prod.fst).Nodup) : ((bump m q).map Prod.fst).Nodup := by
  rw [bump_keys]
  split
  next hq => exact h
  next hq => simp [List.nodup_append, h, hq]

/-- A `bump` preserves positivity of all stored counts. -/
theorem bump_pos (m : List (String × ℕ)) (q : String)
    (h : ∀ e ∈ m, 1 ≤ e.2) : ∀ e ∈ bump m q, 1 ≤ e.2 := by
  induction m with
  | nil =>
    intro e he
    simp only [bump, List.mem_singleton] at he
    subst he
    exact le_refl 1
  | cons f rest ih =>
    obtain ⟨r, n⟩ := f
    intro e he
    simp only [bump] at he
    by_cases hrq : r = q
    · rw [if_pos hrq] at he
      rcases List.mem_cons.mp he with he2 | he2
      · rw [he2]
        simp
      · exact h e (List.mem_cons_of_mem _ he2)
    · rw [if_neg hrq] at he
      rcases List.mem_cons.mp he with he2 | he2
      · rw [he2]
        exact h _ (List.mem_cons_self _ _)
      · exact ih (fun e2 he2 => h e2 (List.mem_cons_of_mem _ he2)) e he2

/-- The per-change inner fold adds each file's occurrence count. -/
theorem filesFold_lookup (files : List PRFile) (m : List (String × ℕ)) (p : String) :
    lookupCount (files.foldl (fun m2 f => bump m2 f.filename) m) p =
      lookupCount m p + (files.map PRFile.filename).count p := by
  induction files generalizing m with
  | nil => simp
  | cons f fs ih =>
    rw [List.foldl_cons, ih, bump_lookup]
    simp only [List.map_cons, List.count_cons]
    by_cases hfp : f.filename = p
    · rw [if_pos hfp, if_pos (beq_iff_eq.mpr hfp)]
      omega
    · rw [if_neg hfp, if_neg (fun hb => hfp (beq_iff_eq.mp hb))]
      omega

/-- The per-change inner fold preserves key distinctness. -/
theorem filesFold_nodup (files : List PRFile) (m : List (String × ℕ))
    (h : (m.map Prod.fst).Nodup) :
    (((files.foldl (fun m2 f => bump m2 f.filename) m)).map Prod.fst).Nodup := by
  induction files generalizing m with
  | nil => exact h
  | cons f fs ih => exact ih _ (bump_nodup _ _ h)

/-- The per-change inner fold preserves positivity of counts. -/
theorem filesFold_pos (files : List PRFile) (m : List (String × ℕ))
    (h : ∀ e ∈ m, 1 ≤ e.2) :
    ∀ e ∈ files.foldl (fun m2 f => bump m2 f.filename) m, 1 ≤ e.2 := by
  induction files generalizing m with
  | nil => exact h
  | cons f fs ih => exact ih _ (bump_pos _ _ h)

/-- The frequency table stores exactly the touch count of every path. -/
theorem freqFold_lookup (window : List (List PRFile)) (p : String) :
    lookupCount (freqFold window) p = touchCount p window := by
  suffices h : ∀ m, lookupCount
      (window.foldl (fun m files => files.foldl (fun m2 f => bump m2 f.filename) m) m) p =
      lookupCount m p + touchCount p window by
    simpa [freqFold, lookupCount] using h []
  induction window with
  | nil =>
    intro m
    simp [touchCount]
  | cons files rest ih =>
    intro m
    rw [List.foldl_cons, ih, filesFold_lookup]
    simp [touchCount]
    omega

/-- The frequency table has pairwise distinct keys. -/
theorem freqFold_nodup (window : List (List PRFile)) :
    ((freqFold window).map Prod.fst).Nodup := by
  suffices h : ∀ m : List (String × ℕ), (m.map Prod.fst).Nodup → ((window.foldl
      (fun (m : List (String × ℕ)) (files : List PRFile) =>
        files.foldl (fun m2 f => bump m2 f.filename) m) m).map Prod.fst).Nodup by
    exact h [] (by simp)
  induction window with
  | nil => exact fun m hm => hm
  | cons files rest ih => exact fun m hm => ih _ (filesFold_nodup _ _ hm)

/-- Every entry of the frequency table has a positive count. -/
theorem freqFold_pos (window : List (List PRFile)) : ∀ e ∈ freqFold window, 1 ≤ e.2 := by
  suffices h : ∀ m : List (String × ℕ), (∀ e ∈ m, 1 ≤ e.2) → ∀ e ∈ window.foldl
      (fun (m : List (String × ℕ)) (files : List PRFile) =>
        files.foldl (fun m2 f => bump m2 f.filename) m) m, 1 ≤ e.2 by
    exact h [] (by simp)
  induction window with
  | nil => exact fun m hm => hm
  | cons files rest ih => exact fun m hm => ih _ (filesFold_pos _ _ hm)

/-- A key absent from an association list looks up to zero. -/
theorem lookup_eq_zero_of_not_mem (m : List (String × ℕ)) (p : String)
    (h : p ∉ m.map Prod.fst) : lookupCount m p = 0 := by
  induction m with
  | nil => rfl
  | cons e rest ih =>
    obtain ⟨r, n⟩ := e
    simp only [List.map_cons, List.mem_cons, not_or] at h
    simp only [lookupCount, if_neg (fun hrp : r = p => h.1 hrp.symm)]
    exact ih h.2

/-- With distinct keys, membership of a pair determines the lookup. -/
theorem lookup_of_mem_nodup (m : List (String × ℕ)) (p : String) (n : ℕ)
    (hnd : (m.map Prod.fst).Nodup) (hmem : (p, n) ∈ m) : lookupCount m p = n := by
  induction m with
  | nil => simp at hmem
  | cons e rest ih =>
    obtain ⟨r, k⟩ := e
    simp only [List.map_cons] at hnd
    rcases List.mem_cons.mp hmem with heq | hmem2
    · cases heq
      simp [lookupCount]
    · have hr_notin := (List.nodup_cons.mp hnd).1
      have hp_in : p ∈ rest.map Prod.fst := List.mem_map.mpr ⟨(p, n), hmem2, rfl⟩
      have hrp : ¬ r = p := fun h => hr_notin (h ▸ hp_in)
      simp only [lookupCount, if_neg hrp]
      exact ih (List.nodup_cons.mp hnd).2 hmem2

/-- Building a JS `Set` from a list preserves exactly its membership. -/
theorem setDedup_mem (l : List String) (x : String) : x ∈ setDedup l ↔ x ∈ l := by
  suffices h : ∀ acc : List String,
      (x ∈ l.foldl (fun acc y => if acc.contains y then acc else acc ++ [y]) acc ↔
        x ∈ acc ∨ x ∈ l) by
    simpa [setDedup] using h []
  induction l with
  | nil =>
    intro acc
    simp
  | cons y ys ih =>
    intro acc
    rw [List.foldl_cons]
    by_cases hc : acc.contains y = true
    · rw [if_pos hc, ih]
      have hy : y ∈ acc := by simpa using hc
      constructor
      · rintro (h | h)
        · exact Or.inl h
        · exact Or.inr (List.mem_cons_of_mem y h)
      · rintro (h | h)
        · exact Or.inl h
        · rcases List.mem_cons.mp h with rfl | h2
          · exact Or.inl hy
          · exact Or.inr h2
    · rw [if_neg hc, ih]
      simp only [List.mem_append, List.mem_singleton, List.mem_cons]
      tauto

/-- Membership in the computed hotspot set: a path is a hotspot exactly
when it is among the top-10 most frequent paths or its touch frequency
is at least 3. -/
theorem computeHotspots_mem (window : List (List PRFile)) (p : String) :
    p ∈ computeHotspots window ↔
      (p ∈ ((sortByIns entryGoPast (freqFold window)).take 10).map Prod.fst ∨
        3 ≤ touchCount p window) := by
  have hth : p ∈ ((sortByIns entryGoPast (freqFold window)).filter
      (fun e => 3 ≤ e.2)).map Prod.fst ↔ 3 ≤ touchCount p window := by
    rw [List.mem_map]
    constructor
    · rintro ⟨e, he, hep⟩
      rcases List.mem_filter.mp he with ⟨hmem, hge⟩
      have hmem2 : e ∈ freqFold window := (sortByIns_mem _ _ _).mp hmem
      have hlk : lookupCount (freqFold window) e.1 = e.2 :=
        lookup_of_mem_nodup _ _ _ (freqFold_nodup window) hmem2
      rw [← hep, ← freqFold_lookup, hlk]
      simpa using hge
    · intro h3
      have hp : lookupCount (freqFold window) p = touchCount p window :=
        freqFold_lookup window p
      have hmemk : p ∈ (freqFold window).map Prod.fst := by
        by_contra hnm
        rw [lookup_eq_zero_of_not_mem _ _ hnm] at hp
        omega
      rcases List.mem_map.mp hmemk with ⟨e, he, hep⟩
      have hlk : lookupCount (freqFold window) e.1 = e.2 :=
        lookup_of_mem_nodup _ _ _ (freqFold_nodup window) he
      refine ⟨e, List.mem_filter.mpr ⟨(sortByIns_mem _ _ _).mpr he, ?_⟩, hep⟩
      have he2 : 3 ≤ e.2 := by
        rw [← hlk, hep, hp]
        exact h3
      simpa using he2
  simp only [computeHotspots]
  rw [setDedup_mem, List.mem_append, hth]

/-- The degenerate small-window case: with fewer than 10 distinct paths
in the window, every touched path is a hotspot (the top-10 rule absorbs
everything). -/
theorem computeHotspots_small_window (window : List (List PRFile)) (p : String)
    (hlen : ((freqFold window).map Prod.fst).length < 10)
    (htouch : 1 ≤ touchCount p window) : p ∈ computeHotspots window := by
  rw [computeHotspots_mem]
  left
  have hp : lookupCount (freqFold window) p = touchCount p window :=
    freqFold_lookup window p
  have hmemk : p ∈ (freqFold window).map Prod.fst := by
    by_contra hnm
    rw [lookup_eq_zero_of_not_mem _ _ hnm] at hp
    omega
  have hlen2 : (sortByIns entryGoPast (freqFold window)).length ≤ 10 := by
    rw [(sortByIns_perm entryGoPast (freqFold window)).length_eq]
    rw [List.length_map] at hlen
    omega
  rw [List.take_of_length_le hlen2]
  rcases List.mem_map.mp hmemk with ⟨e, he, hep⟩
  exact List.mem_map.mpr ⟨e, (sortByIns_mem _ _ _).mpr he, hep⟩

/-- Claim C5: the baseline hotspot set is exactly the union of the
top-10 paths by descending touch frequency and the paths of frequency at
least 3; with fewer than 10 distinct paths every touched path becomes a
hotspot, and in the concrete window touching `src/a.ext` three times and
`infra/x.yml` once, both paths are hotspots. -/
theorem hotspot_union_top10_threshold :
    (∀ (window : List (List PRFile)) (p : String),
      p ∈ computeHotspots window ↔
        (p ∈ ((sortByIns entryGoPast (freqFold window)).take 10).map Prod.fst ∨
          3 ≤ touchCount p window)) ∧
    (∀ (window : List (List PRFile)) (p : String),
      ((freqFold window).map Prod.fst).length < 10 → 1 ≤ touchCount p window →
        p ∈ computeHotspots window) ∧
    computeHotspots [[⟨"src/a.ext", 10, 2⟩], [⟨"src/a.ext", 3, 1⟩], [⟨"src/a.ext", 0, 4⟩],
      [⟨"infra/x.yml", 5, 0⟩]] = ["src/a.ext", "infra/x.yml"] := by
  refine ⟨computeHotspots_mem, computeHotspots_small_window, ?_⟩
  decide

/-- Witness for claim C5: the degenerate small-window rule applied to a
concrete two-path window. -/
theorem hotspot_union_top10_threshold_witness :
    ((freqFold [[⟨"src/a.ext", 10, 2⟩], [⟨"infra/x.yml", 5, 0⟩]]).map Prod.fst).length < 10 ∧
      1 ≤ touchCount "infra/x.yml" [[⟨"src/a.ext", 10, 2⟩], [⟨"infra/x.yml", 5, 0⟩]] ∧
      "infra/x.yml" ∈ computeHotspots [[⟨"src/a.ext", 10, 2⟩], [⟨"infra/x.yml", 5, 0⟩]] :=
  ⟨by decide, by decide,
    hotspot_union_top10_threshold.2.1 [[⟨"src/a.ext", 10, 2⟩], [⟨"infra/x.yml", 5, 0⟩]]
      "infra/x.yml" (by decide) (by decide)⟩
